import Mathlib

/-!
Verification of the rating-aggregation core of the repository
(`judge_stats.py`): ELO rankings from pairwise comparison records,
consensus-vote resolution, and agreement statistics.

A CSV row (`Dict[str, str]` in the source) is embedded as an ordered
association list of string fields; `row.get(key, "")` becomes `rowGet`.
The lazily-defaulting ELO dictionary (`defaultdict(lambda: INITIAL_ELO)`)
is embedded as an association list with a defaulting reader `eloGet` and
an insert-or-update writer `eloSet`; a plain read in the source inserts
the default only when it is immediately followed by the writes at the
same keys, so the key set of the final dictionary is exactly the set of
keys ever written, which `eloSet` reproduces.  Python floats are
idealised as real numbers; the integer/percentage statistics are exact
and use rationals.
-/

namespace JudgeStats

/-- A CSV record: ordered field list, as `csv.DictReader` produces. -/
abbrev Row := List (String × String)

/-- Embeds `row.get(key, "")`: first field with the given name, else `""`.
Also used for `row["model_a"]` / `row["model_b"]`, which the caller
guarantees to be present (spec section 7, structural precondition). -/
def rowGet (row : Row) (key : String) : String :=
  match row with
  | [] => ""
  | (k, v) :: rest => if k = key then v else rowGet rest key

/-- The field names of a record, as `row.keys()`. -/
def rowKeys (row : Row) : List String :=
  row.map Prod.fst

/-- Constant `INITIAL_ELO = 1500` from the source. -/
def INITIAL_ELO : ℝ := 1500

/-- Constant `K_FACTOR = 32` from the source. -/
def K_FACTOR : ℝ := 32

/-- The ELO dictionary: competitor name to current rating, in insertion order. -/
abbrev EloMap := List (String × ℝ)

/-- Read of `elo_scores[model]` under the `defaultdict(lambda: INITIAL_ELO)`. -/
noncomputable def eloGet (m : EloMap) (model : String) : ℝ :=
  match m with
  | [] => INITIAL_ELO
  | (k, v) :: rest => if k = model then v else eloGet rest model

/-- Write of `elo_scores[model] = value`: update in place, or append. -/
def eloSet (m : EloMap) (model : String) (value : ℝ) : EloMap :=
  match m with
  | [] => [(model, value)]
  | (k, v) :: rest =>
      if k = model then (model, value) :: rest else (k, v) :: eloSet rest model value

/-- Whether a competitor has an entry in the dictionary (`model in elo_scores`). -/
def hasKey (m : EloMap) (model : String) : Bool :=
  match m with
  | [] => false
  | (k, _) :: rest => if k = model then true else hasKey rest model

/-- Sum of all ratings stored in the dictionary. -/
noncomputable def eloSum (m : EloMap) : ℝ :=
  (m.map Prod.snd).sum

/-- One loop iteration of `compute_elo_rankings` / `compute_consensus_elo`
(source lines 68-92 and 127-151, which are textually identical): skip
unless the resolved vote is `"a"` or `"b"`, otherwise read both ratings,
form the logistic expected scores, and write back the K-factor update. -/
noncomputable def elo_update (elo_scores : EloMap) (model_a model_b winner : String) :
    EloMap :=
  if winner = "a" ∨ winner = "b" then
    let rating_a := eloGet elo_scores model_a
    let rating_b := eloGet elo_scores model_b
    let expected_a := 1 / (1 + (10 : ℝ) ^ ((rating_b - rating_a) / 400))
    let expected_b := 1 / (1 + (10 : ℝ) ^ ((rating_a - rating_b) / 400))
    let actual_a : ℝ := if winner = "a" then 1.0 else 0.0
    let actual_b : ℝ := if winner = "a" then 0.0 else 1.0
    eloSet (eloSet elo_scores model_a (rating_a + K_FACTOR * (actual_a - expected_a)))
      model_b (rating_b + K_FACTOR * (actual_b - expected_b))
  else
    elo_scores

/-- Function `compute_elo_rankings(results, winner_column)` from the source. -/
noncomputable def compute_elo_rankings (results : List Row) (winner_column : String) :
    EloMap :=
  results.foldl
    (fun elo_scores row =>
      elo_update elo_scores (rowGet row "model_a") (rowGet row "model_b")
        (rowGet row winner_column))
    []

/-- The vote-counting loop of `get_consensus_winner`: `(votes_a, votes_b)`. -/
def count_votes (row : Row) (judge_columns : List String) : Nat × Nat :=
  judge_columns.foldl
    (fun counts judge =>
      let vote := rowGet row judge
      if vote = "a" then (counts.1 + 1, counts.2)
      else if vote = "b" then (counts.1, counts.2 + 1)
      else counts)
    (0, 0)

/-- Function `get_consensus_winner(row, judge_columns)` from the source. -/
def get_consensus_winner (row : Row) (judge_columns : List String) : String :=
  let votes_a := (count_votes row judge_columns).1
  let votes_b := (count_votes row judge_columns).2
  if votes_b < votes_a then "a"
  else if votes_a < votes_b then "b"
  else ""

/-- Function `compute_consensus_elo(results, judge_columns)` from the source. -/
noncomputable def compute_consensus_elo (results : List Row) (judge_columns : List String) :
    EloMap :=
  results.foldl
    (fun elo_scores row =>
      elo_update elo_scores (rowGet row "model_a") (rowGet row "model_b")
        (get_consensus_winner row judge_columns))
    []

/-- The reserved non-judge column names from `get_judge_columns`. -/
def non_judge_cols : List String :=
  ["folder_path", "model_a", "model_b", "human_winner"]

/-- Function `get_judge_columns(results)` from the source: fields of the FIRST record
that are not reserved. -/
def get_judge_columns (results : List Row) : List String :=
  match results with
  | [] => []
  | first :: _ => (rowKeys first).filter (fun col => !(non_judge_cols.contains col))

/-- The counting loop of `compute_agreement_stats` for one judge:
`(agreements, total)` against the `human_winner` field. -/
def agree_counts (results : List Row) (judge : String) : Nat × Nat :=
  results.foldl
    (fun counts row =>
      let human_winner := rowGet row "human_winner"
      let judge_winner := rowGet row judge
      if (human_winner = "a" ∨ human_winner = "b") ∧
          (judge_winner = "a" ∨ judge_winner = "b") then
        if human_winner = judge_winner then (counts.1 + 1, counts.2 + 1)
        else (counts.1, counts.2 + 1)
      else counts)
    (0, 0)

/-- Expression `(agreements / total * 100) if total > 0 else 0.0` from the source,
over exact rationals. -/
def percentage_of (agreements total : Nat) : ℚ :=
  if 0 < total then (agreements : ℚ) / (total : ℚ) * 100 else 0.0

/-- Function `compute_agreement_stats(results, judge_columns)` from the source:
entry `(judge, (agreements, total, percentage))` for each judge column. -/
def compute_agreement_stats (results : List Row) (judge_columns : List String) :
    List (String × (Nat × Nat × ℚ)) :=
  judge_columns.map
    (fun judge =>
      let counts := agree_counts results judge
      (judge, (counts.1, counts.2, percentage_of counts.1 counts.2)))

/-- The counting loop of `compute_inter_judge_agreement` for one judge pair:
`(agreements, total)` over records where both votes are valid. -/
def inter_counts (results : List Row) (judge_a judge_b : String) : Nat × Nat :=
  results.foldl
    (fun counts row =>
      let vote_a := rowGet row judge_a
      let vote_b := rowGet row judge_b
      if (vote_a = "a" ∨ vote_a = "b") ∧ (vote_b = "a" ∨ vote_b = "b") then
        if vote_a = vote_b then (counts.1 + 1, counts.2 + 1)
        else (counts.1, counts.2 + 1)
      else counts)
    (0, 0)

/-- The value stored for one judge pair:
`(agreements, total, percentage)`. -/
def inter_entry (results : List Row) (judge_a judge_b : String) : Nat × Nat × ℚ :=
  let counts := inter_counts results judge_a judge_b
  (counts.1, counts.2, percentage_of counts.1 counts.2)

/-- Inner loop of `compute_inter_judge_agreement` for a fixed `judge_a`
over the tail `judge_columns[i:]` (which starts with `judge_a` itself):
each pair inserts `stats[(judge_a, judge_b)]`, and the mirrored key when
the two judges differ. -/
def inner_entries (results : List Row) (judge_a : String) :
    List String → List ((String × String) × (Nat × Nat × ℚ))
  | [] => []
  | judge_b :: rest =>
      let entry := inter_entry results judge_a judge_b
      (((judge_a, judge_b), entry) ::
        (if judge_a = judge_b then [] else [((judge_b, judge_a), entry)])) ++
        inner_entries results judge_a rest

/-- Function `compute_inter_judge_agreement(results, judge_columns)` from the source:
the enumerate-and-slice double loop, flattened to an entry list.  Lookups
into the Python dict are embedded by `lookupStat`; every entry built for a
given key carries the same value, so first-match lookup agrees with the
dict's last-write-wins semantics. -/
def compute_inter_judge_agreement (results : List Row) :
    List String → List ((String × String) × (Nat × Nat × ℚ))
  | [] => []
  | judge_a :: rest =>
      inner_entries results judge_a (judge_a :: rest) ++
        compute_inter_judge_agreement results rest

/-- Lookup `stats[(judge_a, judge_b)]` in the inter-judge table. -/
def lookupStat {β : Type} (stats : List ((String × String) × β)) (key : String × String) :
    Option β :=
  (stats.find? (fun e => decide (e.1 = key))).map Prod.snd

/-- Lookup `stats[judge]` in the per-judge agreement table. -/
def lookupJudgeStat {β : Type} (stats : List (String × β)) (key : String) : Option β :=
  (stats.find? (fun e => decide (e.1 = key))).map Prod.snd

/-! Basic dictionary lemmas. -/

theorem eloGet_eloSet_self (m : EloMap) (k : String) (v : ℝ) :
    eloGet (eloSet m k v) k = v := by
  induction m with
  | nil => simp [eloSet, eloGet]
  | cons hd tl ih =>
      obtain ⟨k', v'⟩ := hd
      by_cases h : k' = k
      · simp [eloSet, eloGet, h]
      · simp [eloSet, eloGet, h, ih]

theorem eloGet_eloSet_other (m : EloMap) (k k' : String) (v : ℝ) (h : k ≠ k') :
    eloGet (eloSet m k v) k' = eloGet m k' := by
  induction m with
  | nil => simp [eloSet, eloGet, h]
  | cons hd tl ih =>
      obtain ⟨k0, v0⟩ := hd
      by_cases h0 : k0 = k
      · subst h0
        simp [eloSet, eloGet, h]
      · simp only [eloSet, if_neg h0, eloGet]
        by_cases h1 : k0 = k'
        · simp [h1]
        · simp [h1, ih]

theorem hasKey_eloSet (m : EloMap) (k k' : String) (v : ℝ) :
    hasKey (eloSet m k v) k' = (hasKey m k' || decide (k = k')) := by
  induction m with
  | nil => simp [eloSet, hasKey]
  | cons hd tl ih =>
      obtain ⟨k0, v0⟩ := hd
      by_cases h0 : k0 = k
      · subst h0
        by_cases h1 : k0 = k'
        · simp [eloSet, hasKey, h1]
        · simp [eloSet, hasKey, h1, ih]
      · simp only [eloSet, if_neg h0, hasKey]
        by_cases h1 : k0 = k'
        · simp [h1]
        · simp [h1, ih]

theorem eloGet_of_hasKey_false (m : EloMap) (k : String) (h : hasKey m k = false) :
    eloGet m k = INITIAL_ELO := by
  induction m with
  | nil => simp [eloGet]
  | cons hd tl ih =>
      obtain ⟨k0, v0⟩ := hd
      by_cases h0 : k0 = k
      · simp [hasKey, h0] at h
      · simp only [hasKey, if_neg h0] at h
        simp [eloGet, h0, ih h]

theorem eloSum_eloSet_of_hasKey (m : EloMap) (k : String) (v : ℝ)
    (h : hasKey m k = true) :
    eloSum (eloSet m k v) = eloSum m + v - eloGet m k := by
  induction m with
  | nil => simp [hasKey] at h
  | cons hd tl ih =>
      obtain ⟨k0, v0⟩ := hd
      by_cases h0 : k0 = k
      · simp [eloSet, eloSum, eloGet, h0]
        ring
      · simp only [hasKey, if_neg h0] at h
        simp only [eloSet, if_neg h0, eloSum, List.map_cons, List.sum_cons, eloGet]
        have := ih h
        simp only [eloSum] at this
        rw [this]
        ring

theorem length_eloSet_of_hasKey (m : EloMap) (k : String) (v : ℝ)
    (h : hasKey m k = true) :
    (eloSet m k v).length = m.length := by
  induction m with
  | nil => simp [hasKey] at h
  | cons hd tl ih =>
      obtain ⟨k0, v0⟩ := hd
      by_cases h0 : k0 = k
      · simp [eloSet, h0]
      · simp only [hasKey, if_neg h0] at h
        simp [eloSet, if_neg h0, ih h]

theorem eloSum_eloSet_of_hasKey_false (m : EloMap) (k : String) (v : ℝ)
    (h : hasKey m k = false) :
    eloSum (eloSet m k v) = eloSum m + v := by
  induction m with
  | nil => simp [eloSet, eloSum]
  | cons hd tl ih =>
      obtain ⟨k0, v0⟩ := hd
      by_cases h0 : k0 = k
      · simp [hasKey, h0] at h
      · simp only [hasKey, if_neg h0] at h
        simp only [eloSet, if_neg h0, eloSum, List.map_cons, List.sum_cons]
        have := ih h
        simp only [eloSum] at this
        rw [this]
        ring

theorem length_eloSet_of_hasKey_false (m : EloMap) (k : String) (v : ℝ)
    (h : hasKey m k = false) :
    (eloSet m k v).length = m.length + 1 := by
  induction m with
  | nil => simp [eloSet]
  | cons hd tl ih =>
      obtain ⟨k0, v0⟩ := hd
      by_cases h0 : k0 = k
      · simp [hasKey, h0] at h
      · simp only [hasKey, if_neg h0] at h
        simp [eloSet, if_neg h0, ih h]

/-! The logistic expected scores of one update sum to one. -/

theorem expected_sum (ra rb : ℝ) :
    1 / (1 + (10 : ℝ) ^ ((rb - ra) / 400)) + 1 / (1 + (10 : ℝ) ^ ((ra - rb) / 400)) = 1 := by
  have h10 : (0 : ℝ) ≤ 10 := by norm_num
  have hpos : (0 : ℝ) < (10 : ℝ) ^ ((rb - ra) / 400) :=
    Real.rpow_pos_of_pos (by norm_num) _
  have hneg : (10 : ℝ) ^ ((ra - rb) / 400) = ((10 : ℝ) ^ ((rb - ra) / 400))⁻¹ := by
    rw [← Real.rpow_neg h10]
    congr 1
    ring
  rw [hneg]
  have h1 : (1 : ℝ) + (10 : ℝ) ^ ((rb - ra) / 400) ≠ 0 := by positivity
  have h2 : (10 : ℝ) ^ ((rb - ra) / 400) ≠ 0 := ne_of_gt hpos
  field_simp
  ring

/-! Characterisation of one `elo_update` step. -/

theorem elo_update_skip (m : EloMap) (a b w : String) (h : ¬(w = "a" ∨ w = "b")) :
    elo_update m a b w = m := by
  simp only [elo_update, if_neg h]

theorem elo_update_def (m : EloMap) (a b w : String) (h : w = "a" ∨ w = "b") :
    elo_update m a b w =
      eloSet
        (eloSet m a
          (eloGet m a +
            K_FACTOR * ((if w = "a" then (1.0 : ℝ) else 0.0) -
              1 / (1 + (10 : ℝ) ^ ((eloGet m b - eloGet m a) / 400)))))
        b
        (eloGet m b +
          K_FACTOR * ((if w = "a" then (0.0 : ℝ) else 1.0) -
            1 / (1 + (10 : ℝ) ^ ((eloGet m a - eloGet m b) / 400)))) := by
  simp only [elo_update, if_pos h]

theorem eloGet_elo_update_a (m : EloMap) (a b w : String)
    (h : w = "a" ∨ w = "b") (hab : a ≠ b) :
    eloGet (elo_update m a b w) a =
      eloGet m a +
        K_FACTOR * ((if w = "a" then (1.0 : ℝ) else 0.0) -
          1 / (1 + (10 : ℝ) ^ ((eloGet m b - eloGet m a) / 400))) := by
  rw [elo_update_def m a b w h, eloGet_eloSet_other _ b a _ (Ne.symm hab),
    eloGet_eloSet_self]

theorem eloGet_elo_update_b (m : EloMap) (a b w : String)
    (h : w = "a" ∨ w = "b") :
    eloGet (elo_update m a b w) b =
      eloGet m b +
        K_FACTOR * ((if w = "a" then (0.0 : ℝ) else 1.0) -
          1 / (1 + (10 : ℝ) ^ ((eloGet m a - eloGet m b) / 400))) := by
  rw [elo_update_def m a b w h, eloGet_eloSet_self]

theorem eloGet_elo_update_other (m : EloMap) (a b w k : String)
    (ha : k ≠ a) (hb : k ≠ b) :
    eloGet (elo_update m a b w) k = eloGet m k := by
  by_cases h : w = "a" ∨ w = "b"
  · rw [elo_update_def m a b w h, eloGet_eloSet_other _ b k _ (Ne.symm hb),
      eloGet_eloSet_other _ a k _ (Ne.symm ha)]
  · rw [elo_update_skip m a b w h]

theorem hasKey_elo_update (m : EloMap) (a b w k : String) :
    hasKey (elo_update m a b w) k =
      (hasKey m k ||
        (decide (w = "a" ∨ w = "b") && (decide (a = k) || decide (b = k)))) := by
  by_cases h : w = "a" ∨ w = "b"
  · rw [elo_update_def m a b w h, hasKey_eloSet, hasKey_eloSet]
    simp [h, Bool.or_assoc]
  · rw [elo_update_skip m a b w h]
    simp [h]

/-- C4: for a single processed record (resolved vote `"a"` or `"b"`) with
distinct competitors, the rating changes applied by the ELO update are
exactly opposite: `(Ra' - Ra) = -(Rb' - Rb)`. -/
theorem elo_update_zero_sum (m : EloMap) (model_a model_b winner : String)
    (hw : winner = "a" ∨ winner = "b") (hab : model_a ≠ model_b) :
    eloGet (elo_update m model_a model_b winner) model_a - eloGet m model_a
      = -(eloGet (elo_update m model_a model_b winner) model_b - eloGet m model_b) := by
  rw [eloGet_elo_update_a m model_a model_b winner hw hab,
    eloGet_elo_update_b m model_a model_b winner hw]
  have hs := expected_sum (eloGet m model_a) (eloGet m model_b)
  rw [one_div, one_div] at hs
  rcases hw with h | h
  · rw [if_pos h, if_pos h]
    simp only [K_FACTOR]
    norm_num
    linarith
  · have hna : winner ≠ "a" := by
      rw [h]
      decide
    rw [if_neg hna, if_neg hna]
    simp only [K_FACTOR]
    norm_num
    linarith

/-- Witness for C4 at a concrete processed record. -/
theorem elo_update_zero_sum_witness :
    eloGet (elo_update [] "x" "y" "a") "x" - eloGet [] "x"
      = -(eloGet (elo_update [] "x" "y" "a") "y" - eloGet [] "y") :=
  elo_update_zero_sum [] "x" "y" "a" (Or.inl rfl) (by decide)

/-! Key-set of the rating fold. -/

theorem hasKey_foldl (f : Row → String) (rs : List Row) (m : EloMap) (k : String) :
    hasKey
        (rs.foldl
          (fun acc row =>
            elo_update acc (rowGet row "model_a") (rowGet row "model_b") (f row))
          m)
        k
      = (hasKey m k ||
          rs.any (fun row =>
            decide (f row = "a" ∨ f row = "b") &&
              (decide (rowGet row "model_a" = k) ||
                decide (rowGet row "model_b" = k)))) := by
  induction rs generalizing m with
  | nil => simp
  | cons r rest ih =>
      simp only [List.foldl_cons, List.any_cons, ih, hasKey_elo_update, Bool.or_assoc]

/-- C1 (amended): the mapping returned by `compute_elo_rankings` (and
`compute_consensus_elo`) has an entry for a competitor exactly when the
competitor appears in some record whose resolved vote is `"a"` or `"b"`;
competitors appearing only in skipped records get no entry (a later
defaulting lookup would still yield the 1500.0 baseline). -/
theorem elo_rankings_domain (results : List Row) (winner_column : String)
    (judge_columns : List String) (competitor : String) :
    (hasKey (compute_elo_rankings results winner_column) competitor =
      results.any (fun row =>
        decide (rowGet row winner_column = "a" ∨ rowGet row winner_column = "b") &&
          (decide (rowGet row "model_a" = competitor) ||
            decide (rowGet row "model_b" = competitor)))) ∧
    (hasKey (compute_consensus_elo results judge_columns) competitor =
      results.any (fun row =>
        decide (get_consensus_winner row judge_columns = "a" ∨
            get_consensus_winner row judge_columns = "b") &&
          (decide (rowGet row "model_a" = competitor) ||
            decide (rowGet row "model_b" = competitor)))) := by
  constructor
  · have h := hasKey_foldl (fun row => rowGet row winner_column) results [] competitor
    simpa [compute_elo_rankings, hasKey] using h
  · have h := hasKey_foldl (fun row => get_consensus_winner row judge_columns)
      results [] competitor
    simpa [compute_consensus_elo, hasKey] using h

/-- C1 counterexample: on a single record with empty resolved vote, the
competitors appear in the input but `compute_elo_rankings` (and
`compute_consensus_elo`) return no entry for them, against the claim that
they receive a baseline entry. -/
theorem elo_rankings_domain_cex :
    rowGet [("model_a", "M1"), ("model_b", "M2"), ("human_winner", "")] "model_a"
        = "M1" ∧
    hasKey
        (compute_elo_rankings
          [[("model_a", "M1"), ("model_b", "M2"), ("human_winner", "")]]
          "human_winner")
        "M1" = false ∧
    hasKey
        (compute_consensus_elo [[("model_a", "M1"), ("model_b", "M2"), ("j1", "")]]
          ["j1"])
        "M1" = false := by
  refine ⟨by decide, ?_, ?_⟩
  · show hasKey
        (elo_update []
          (rowGet [("model_a", "M1"), ("model_b", "M2"), ("human_winner", "")] "model_a")
          (rowGet [("model_a", "M1"), ("model_b", "M2"), ("human_winner", "")] "model_b")
          (rowGet [("model_a", "M1"), ("model_b", "M2"), ("human_winner", "")]
            "human_winner"))
        "M1" = false
    rw [show rowGet [("model_a", "M1"), ("model_b", "M2"), ("human_winner", "")]
        "human_winner" = "" from rfl]
    rw [elo_update_skip _ _ _ _ (by decide)]
    rfl
  · show hasKey
        (elo_update []
          (rowGet [("model_a", "M1"), ("model_b", "M2"), ("j1", "")] "model_a")
          (rowGet [("model_a", "M1"), ("model_b", "M2"), ("j1", "")] "model_b")
          (get_consensus_winner [("model_a", "M1"), ("model_b", "M2"), ("j1", "")]
            ["j1"]))
        "M1" = false
    rw [show get_consensus_winner [("model_a", "M1"), ("model_b", "M2"), ("j1", "")]
        ["j1"] = "" from rfl]
    rw [elo_update_skip _ _ _ _ (by decide)]
    rfl

/-- C2 (amended): for every non-empty record list, `get_judge_columns`
returns exactly the field names present on the FIRST record minus the four
reserved names `folder_path`, `model_a`, `model_b`, `human_winner`; keys
present only on later records are not consulted. -/
theorem get_judge_columns_first_record (first : Row) (rest : List Row) (col : String) :
    col ∈ get_judge_columns (first :: rest) ↔
      col ∈ rowKeys first ∧ col ∉ non_judge_cols := by
  simp [get_judge_columns, List.mem_filter]

/-- C2 counterexample: a key present only on the second record is missing
from `get_judge_columns`, against the claim that all records' keys are
collected. -/
theorem get_judge_columns_first_record_cex :
    "extra" ∈ rowKeys [("folder_path", "f"), ("extra", "x")] ∧
    "extra" ∉ non_judge_cols ∧
    "extra" ∉
      get_judge_columns [[("folder_path", "f")], [("folder_path", "f"), ("extra", "x")]] := by
  decide

/-! The vote-count loop counts exactly the `"a"` and `"b"` votes. -/

theorem count_votes_aux (row : Row) (cols : List String) (init : Nat × Nat) :
    cols.foldl
        (fun counts judge =>
          let vote := rowGet row judge
          if vote = "a" then (counts.1 + 1, counts.2)
          else if vote = "b" then (counts.1, counts.2 + 1)
          else counts)
        init =
      (init.1 + (cols.filter fun j => decide (rowGet row j = "a")).length,
        init.2 + (cols.filter fun j => decide (rowGet row j = "b")).length) := by
  induction cols generalizing init with
  | nil => simp
  | cons j rest ih =>
      simp only [List.foldl_cons, List.filter_cons]
      by_cases ha : rowGet row j = "a"
      · have hb : ¬rowGet row j = "b" := by
          rw [ha]
          decide
        simp [ha, hb, ih, Prod.ext_iff]
        omega
      · by_cases hb : rowGet row j = "b"
        · simp [ha, hb, ih, Prod.ext_iff]
          omega
        · simp [ha, hb, ih]

/-- C6: the consensus vote counts only `"a"` and `"b"` values among the
listed sources (any other value, such as `"error"` or `""`, is ignored)
and returns the strict-majority value, or `""` on a tie (including 0-0);
and a record whose consensus is `""` contributes nothing to
`compute_consensus_elo` — deleting it from the record list leaves the
result unchanged. -/
theorem consensus_majority (row : Row) (cols : List String) :
    (get_consensus_winner row cols =
      if (cols.filter fun j => decide (rowGet row j = "b")).length <
          (cols.filter fun j => decide (rowGet row j = "a")).length then "a"
      else if (cols.filter fun j => decide (rowGet row j = "a")).length <
          (cols.filter fun j => decide (rowGet row j = "b")).length then "b"
      else "") ∧
    (∀ xs ys : List Row, get_consensus_winner row cols = "" →
      compute_consensus_elo (xs ++ row :: ys) cols
        = compute_consensus_elo (xs ++ ys) cols) := by
  constructor
  · have hcv := count_votes_aux row cols (0, 0)
    simp only [get_consensus_winner, count_votes, hcv]
    norm_num
  · intro xs ys h
    simp only [compute_consensus_elo, List.foldl_append, List.foldl_cons]
    rw [h, elo_update_skip _ _ _ _ (by decide)]

/-- Witness for C6: two sources voting `"a"` and `"b"` tie, the consensus
is empty, and the single-record consensus ELO map is empty. -/
theorem consensus_majority_witness :
    get_consensus_winner
        [("model_a", "M1"), ("model_b", "M2"), ("j1", "a"), ("j2", "b")]
        ["j1", "j2"] = "" ∧
    compute_consensus_elo
        [[("model_a", "M1"), ("model_b", "M2"), ("j1", "a"), ("j2", "b")]]
        ["j1", "j2"] = [] := by
  constructor
  · decide
  · exact (consensus_majority
        [("model_a", "M1"), ("model_b", "M2"), ("j1", "a"), ("j2", "b")]
        ["j1", "j2"]).2 [] [] (by decide)

/-! Rating mass is invariant under one update with distinct competitors. -/

theorem eloSum_elo_update (m : EloMap) (a b w : String) (hab : a ≠ b) :
    eloSum (elo_update m a b w) - 1500 * ((elo_update m a b w).length : ℝ)
      = eloSum m - 1500 * (m.length : ℝ) := by
  by_cases hw : w = "a" ∨ w = "b"
  · rw [elo_update_def m a b w hw]
    have key : ∀ va vb : ℝ, va + vb = eloGet m a + eloGet m b →
        eloSum (eloSet (eloSet m a va) b vb) -
            1500 * (((eloSet (eloSet m a va) b vb).length : ℕ) : ℝ)
          = eloSum m - 1500 * (m.length : ℝ) := by
      intro va vb hsum
      have hGb : eloGet (eloSet m a va) b = eloGet m b :=
        eloGet_eloSet_other m a b va hab
      have hKb : hasKey (eloSet m a va) b = hasKey m b := by
        rw [hasKey_eloSet]
        simp [hab]
      by_cases hA : hasKey m a = true
      · by_cases hB : hasKey m b = true
        · rw [eloSum_eloSet_of_hasKey _ _ _ (hKb.trans hB),
            length_eloSet_of_hasKey _ _ _ (hKb.trans hB),
            eloSum_eloSet_of_hasKey _ _ _ hA, length_eloSet_of_hasKey _ _ _ hA, hGb]
          linarith
        · have hB' : hasKey m b = false := by
            simpa using hB
          have hgb : eloGet m b = INITIAL_ELO := eloGet_of_hasKey_false m b hB'
          rw [eloSum_eloSet_of_hasKey_false _ _ _ (hKb.trans hB'),
            length_eloSet_of_hasKey_false _ _ _ (hKb.trans hB'),
            eloSum_eloSet_of_hasKey _ _ _ hA, length_eloSet_of_hasKey _ _ _ hA]
          rw [INITIAL_ELO] at hgb
          push_cast
          linarith
      · have hA' : hasKey m a = false := by
          simpa using hA
        have hga : eloGet m a = INITIAL_ELO := eloGet_of_hasKey_false m a hA'
        rw [INITIAL_ELO] at hga
        by_cases hB : hasKey m b = true
        · rw [eloSum_eloSet_of_hasKey _ _ _ (hKb.trans hB),
            length_eloSet_of_hasKey _ _ _ (hKb.trans hB),
            eloSum_eloSet_of_hasKey_false _ _ _ hA',
            length_eloSet_of_hasKey_false _ _ _ hA', hGb]
          push_cast
          linarith
        · have hB' : hasKey m b = false := by
            simpa using hB
          have hgb : eloGet m b = INITIAL_ELO := eloGet_of_hasKey_false m b hB'
          rw [INITIAL_ELO] at hgb
          rw [eloSum_eloSet_of_hasKey_false _ _ _ (hKb.trans hB'),
            length_eloSet_of_hasKey_false _ _ _ (hKb.trans hB'),
            eloSum_eloSet_of_hasKey_false _ _ _ hA',
            length_eloSet_of_hasKey_false _ _ _ hA']
          push_cast
          linarith
    apply key
    have hs := expected_sum (eloGet m a) (eloGet m b)
    rw [one_div, one_div] at hs
    rcases hw with h | h
    · rw [if_pos h, if_pos h]
      simp only [K_FACTOR]
      norm_num
      linarith
    · have hna : w ≠ "a" := by
        rw [h]
        decide
      rw [if_neg hna, if_neg hna]
      simp only [K_FACTOR]
      norm_num
      linarith
  · rw [elo_update_skip m a b w hw]

/-- C10 (amended): when every record pairs two distinct competitors, the
sum of all ratings returned by `compute_elo_rankings` equals 1500 times
the number of competitors in the mapping; a self-comparison record
(`model_a == model_b`) breaks this because its second write overwrites
the first. -/
theorem elo_mass_conservation (results : List Row) (winner_column : String)
    (h : ∀ r ∈ results, rowGet r "model_a" ≠ rowGet r "model_b") :
    eloSum (compute_elo_rankings results winner_column)
      = 1500 * ((compute_elo_rankings results winner_column).length : ℝ) := by
  have haux : ∀ (rs : List Row) (m : EloMap),
      (∀ r ∈ rs, rowGet r "model_a" ≠ rowGet r "model_b") →
      eloSum
          (rs.foldl
            (fun elo_scores row =>
              elo_update elo_scores (rowGet row "model_a") (rowGet row "model_b")
                (rowGet row winner_column))
            m) -
          1500 *
            ((rs.foldl
                (fun elo_scores row =>
                  elo_update elo_scores (rowGet row "model_a") (rowGet row "model_b")
                    (rowGet row winner_column))
                m).length : ℝ)
        = eloSum m - 1500 * (m.length : ℝ) := by
    intro rs
    induction rs with
    | nil => intro m _; rfl
    | cons r rest ih =>
        intro m hm
        simp only [List.foldl_cons]
        rw [ih _ (fun r hr => hm r (List.mem_cons_of_mem _ hr)),
          eloSum_elo_update m _ _ _ (hm r (List.mem_cons_self _ _))]
  have hmain := haux results [] h
  have h0 : eloSum ([] : EloMap) - 1500 * ((List.length ([] : EloMap)) : ℝ) = 0 := by
    simp [eloSum]
  rw [h0] at hmain
  simp only [compute_elo_rankings]
  linarith

/-- Witness for C10 (amended) on a concrete two-competitor record. -/
theorem elo_mass_conservation_witness :
    eloSum
        (compute_elo_rankings
          [[("model_a", "M1"), ("model_b", "M2"), ("human_winner", "a")]]
          "human_winner")
      = 1500 *
          ((compute_elo_rankings
              [[("model_a", "M1"), ("model_b", "M2"), ("human_winner", "a")]]
              "human_winner").length : ℝ) :=
  elo_mass_conservation
    [[("model_a", "M1"), ("model_b", "M2"), ("human_winner", "a")]]
    "human_winner" (by decide)

/-- C10 counterexample: one self-comparison record (`model_a == model_b`)
yields a single entry whose rating 1484 differs from 1500 times the one
competitor: total rating mass is not conserved on such input. -/
theorem elo_mass_conservation_cex :
    eloSum
        (compute_elo_rankings
          [[("model_a", "M"), ("model_b", "M"), ("human_winner", "a")]]
          "human_winner")
      ≠ 1500 *
          ((compute_elo_rankings
              [[("model_a", "M"), ("model_b", "M"), ("human_winner", "a")]]
              "human_winner").length : ℝ) := by
  show eloSum (elo_update [] "M" "M" "a")
      ≠ 1500 * ((elo_update [] "M" "M" "a").length : ℝ)
  rw [elo_update_def [] "M" "M" "a" (Or.inl rfl)]
  norm_num [eloGet, eloSet, eloSum, INITIAL_ELO, K_FACTOR, Real.rpow_zero]

/-! Numeric bracketing of the second-step ratings of the concrete spec
scenario.  With `u = 10 ^ ((1484 - 1516)/400)` the two updated ratings are
`1516 - 32/(1 + u)` and `1484 + 32 - 32/(1 + u⁻¹)`; `u` is pinned by
`u ^ 25 = 1/100`. -/

theorem elo_scenario_bounds (u : ℝ) (hu25 : u ^ (25 : ℕ) = 1 / 100) (hupos : 0 < u) :
    |1516 + 32 * (0 - 1 / (1 + u)) - 1498.54| < 1 / 50 ∧
    |1484 + 32 * (1 - 1 / (1 + u⁻¹)) - 1501.46| < 1 / 50 := by
  have hlo : (0.8317 : ℝ) < u := by
    apply lt_of_pow_lt_pow_left₀ 25 (le_of_lt hupos)
    rw [hu25]
    norm_num
  have hhi : u < 0.8318 := by
    apply lt_of_pow_lt_pow_left₀ 25 (by norm_num : (0:ℝ) ≤ 0.8318)
    rw [hu25]
    norm_num
  have hden : (0 : ℝ) < 1 + u := by linarith
  have hne : (1 : ℝ) + u ≠ 0 := ne_of_gt hden
  have hu0 : u ≠ 0 := ne_of_gt hupos
  have key1 : 32 / (1 + u) < 17.48 := by
    rw [div_lt_iff₀ hden]
    nlinarith
  have key2 : (17.44 : ℝ) < 32 / (1 + u) := by
    rw [lt_div_iff₀ hden]
    nlinarith
  have hinv : (1 : ℝ) / (1 + u⁻¹) = u / (1 + u) := by
    have hrw : (1 : ℝ) + u⁻¹ = (1 + u) / u := by
      field_simp
      ring
    rw [hrw, one_div_div]
  constructor
  · have e1 : 1516 + 32 * (0 - 1 / (1 + u)) - 1498.54 = 17.46 - 32 / (1 + u) := by
      ring
    rw [e1, abs_lt]
    constructor <;> linarith
  · have e2 : 1484 + 32 * (1 - 1 / (1 + u⁻¹)) - 1501.46 = 32 / (1 + u) - 17.46 := by
      rw [hinv]
      field_simp
      ring
    rw [e2, abs_lt]
    constructor <;> linarith

/-- C3: concrete two-record scenario on `M1`, `M2` from baseline 1500 with
K=32.  The first record (`human_winner = "a"`) has expected score exactly
one half and yields ratings exactly 1516.0 and 1484.0; the second record
(`human_winner = "b"`) yields exactly the stated formulas, whose values
lie within 0.02 of the spec's rounded figures 1498.54 and 1501.46. -/
theorem elo_concrete_scenario :
    1 / (1 + (10 : ℝ) ^ (((1500 : ℝ) - 1500) / 400)) = 0.5 ∧
    compute_elo_rankings
        [[("model_a", "M1"), ("model_b", "M2"), ("human_winner", "a")]]
        "human_winner" = [("M1", 1516), ("M2", 1484)] ∧
    compute_elo_rankings
        [[("model_a", "M1"), ("model_b", "M2"), ("human_winner", "a")],
          [("model_a", "M1"), ("model_b", "M2"), ("human_winner", "b")]]
        "human_winner" =
      [("M1", 1516 + 32 * (0 - 1 / (1 + (10 : ℝ) ^ (((1484 : ℝ) - 1516) / 400)))),
        ("M2", 1484 + 32 * (1 - 1 / (1 + (10 : ℝ) ^ (((1516 : ℝ) - 1484) / 400))))] ∧
    |1516 + 32 * (0 - 1 / (1 + (10 : ℝ) ^ (((1484 : ℝ) - 1516) / 400))) - 1498.54|
        < 1 / 50 ∧
    |1484 + 32 * (1 - 1 / (1 + (10 : ℝ) ^ (((1516 : ℝ) - 1484) / 400))) - 1501.46|
        < 1 / 50 := by
  have hstep1 : elo_update [] "M1" "M2" "a" = [("M1", (1516 : ℝ)), ("M2", 1484)] := by
    rw [elo_update_def [] "M1" "M2" "a" (Or.inl rfl)]
    norm_num [eloGet, eloSet, INITIAL_ELO, K_FACTOR, Real.rpow_zero,
      show ("M1" : String) ≠ "M2" by decide]
  have hstep2 : elo_update [("M1", (1516 : ℝ)), ("M2", 1484)] "M1" "M2" "b" =
      [("M1", 1516 + 32 * (0 - 1 / (1 + (10 : ℝ) ^ (((1484 : ℝ) - 1516) / 400)))),
        ("M2", 1484 + 32 * (1 - 1 / (1 + (10 : ℝ) ^ (((1516 : ℝ) - 1484) / 400))))] := by
    rw [elo_update_def _ "M1" "M2" "b" (Or.inr rfl)]
    norm_num [eloGet, eloSet, K_FACTOR, show ("M1" : String) ≠ "M2" by decide,
      show ("b" : String) ≠ "a" by decide]
  have hu25 : ((10 : ℝ) ^ (((1484 : ℝ) - 1516) / 400)) ^ (25 : ℕ) = 1 / 100 := by
    rw [← Real.rpow_natCast ((10 : ℝ) ^ (((1484 : ℝ) - 1516) / 400)) 25,
      ← Real.rpow_mul (by norm_num : (0 : ℝ) ≤ 10)]
    rw [show (((1484 : ℝ) - 1516) / 400) * (25 : ℕ) = ((-2 : ℤ) : ℝ) by
      push_cast
      norm_num]
    rw [Real.rpow_intCast]
    norm_num
  have hupos : (0 : ℝ) < (10 : ℝ) ^ (((1484 : ℝ) - 1516) / 400) :=
    Real.rpow_pos_of_pos (by norm_num) _
  have hbounds := elo_scenario_bounds _ hu25 hupos
  have hw : (10 : ℝ) ^ (((1516 : ℝ) - 1484) / 400)
      = ((10 : ℝ) ^ (((1484 : ℝ) - 1516) / 400))⁻¹ := by
    rw [← Real.rpow_neg (by norm_num : (0 : ℝ) ≤ 10)]
    congr 1
    norm_num
  refine ⟨?_, ?_, ?_, hbounds.1, ?_⟩
  · norm_num [Real.rpow_zero]
  · show elo_update [] "M1" "M2" "a" = [("M1", (1516 : ℝ)), ("M2", 1484)]
    exact hstep1
  · show elo_update (elo_update [] "M1" "M2" "a") "M1" "M2" "b" =
      [("M1", 1516 + 32 * (0 - 1 / (1 + (10 : ℝ) ^ (((1484 : ℝ) - 1516) / 400)))),
        ("M2", 1484 + 32 * (1 - 1 / (1 + (10 : ℝ) ^ (((1516 : ℝ) - 1484) / 400))))]
    rw [hstep1, hstep2]
  · rw [hw]
    exact hbounds.2

/-! Two consecutive updates on disjoint competitor pairs commute. -/

theorem hasKey_elo_update_comm (m : EloMap) (a1 b1 w1 a2 b2 w2 k : String) :
    hasKey (elo_update (elo_update m a1 b1 w1) a2 b2 w2) k
      = hasKey (elo_update (elo_update m a2 b2 w2) a1 b1 w1) k := by
  simp only [hasKey_elo_update]
  rw [Bool.or_assoc, Bool.or_assoc, Bool.or_comm
    (decide (w1 = "a" ∨ w1 = "b") && (decide (a1 = k) || decide (b1 = k)))
    (decide (w2 = "a" ∨ w2 = "b") && (decide (a2 = k) || decide (b2 = k)))]

theorem eloGet_elo_update_comm (m : EloMap) (a1 b1 w1 a2 b2 w2 k : String)
    (haa : a1 ≠ a2) (hab : a1 ≠ b2) (hba : b1 ≠ a2) (hbb : b1 ≠ b2) :
    eloGet (elo_update (elo_update m a1 b1 w1) a2 b2 w2) k
      = eloGet (elo_update (elo_update m a2 b2 w2) a1 b1 w1) k := by
  by_cases hw1 : w1 = "a" ∨ w1 = "b"
  case neg =>
    rw [elo_update_skip m a1 b1 w1 hw1, elo_update_skip _ a1 b1 w1 hw1]
  by_cases hw2 : w2 = "a" ∨ w2 = "b"
  case neg =>
    rw [elo_update_skip _ a2 b2 w2 hw2, elo_update_skip m a2 b2 w2 hw2]
  by_cases hkb1 : k = b1
  · rw [hkb1]
    rw [eloGet_elo_update_other (elo_update m a1 b1 w1) a2 b2 w2 b1 hba hbb,
      eloGet_elo_update_b m a1 b1 w1 hw1,
      eloGet_elo_update_b (elo_update m a2 b2 w2) a1 b1 w1 hw1,
      eloGet_elo_update_other m a2 b2 w2 a1 haa hab,
      eloGet_elo_update_other m a2 b2 w2 b1 hba hbb]
  by_cases hka1 : k = a1
  · have hab1 : a1 ≠ b1 := fun h => hkb1 (hka1.trans h)
    rw [hka1]
    rw [eloGet_elo_update_other (elo_update m a1 b1 w1) a2 b2 w2 a1 haa hab,
      eloGet_elo_update_a m a1 b1 w1 hw1 hab1,
      eloGet_elo_update_a (elo_update m a2 b2 w2) a1 b1 w1 hw1 hab1,
      eloGet_elo_update_other m a2 b2 w2 a1 haa hab,
      eloGet_elo_update_other m a2 b2 w2 b1 hba hbb]
  by_cases hkb2 : k = b2
  · rw [hkb2]
    rw [eloGet_elo_update_b (elo_update m a1 b1 w1) a2 b2 w2 hw2,
      eloGet_elo_update_other m a1 b1 w1 a2 (Ne.symm haa) (Ne.symm hba),
      eloGet_elo_update_other m a1 b1 w1 b2 (Ne.symm hab) (Ne.symm hbb),
      eloGet_elo_update_other (elo_update m a2 b2 w2) a1 b1 w1 b2
        (Ne.symm hab) (Ne.symm hbb),
      eloGet_elo_update_b m a2 b2 w2 hw2]
  by_cases hka2 : k = a2
  · have hab2 : a2 ≠ b2 := fun h => hkb2 (hka2.trans h)
    rw [hka2]
    rw [eloGet_elo_update_a (elo_update m a1 b1 w1) a2 b2 w2 hw2 hab2,
      eloGet_elo_update_other m a1 b1 w1 a2 (Ne.symm haa) (Ne.symm hba),
      eloGet_elo_update_other m a1 b1 w1 b2 (Ne.symm hab) (Ne.symm hbb),
      eloGet_elo_update_other (elo_update m a2 b2 w2) a1 b1 w1 a2
        (Ne.symm haa) (Ne.symm hba),
      eloGet_elo_update_a m a2 b2 w2 hw2 hab2]
  · rw [eloGet_elo_update_other (elo_update m a1 b1 w1) a2 b2 w2 k hka2 hkb2,
      eloGet_elo_update_other m a1 b1 w1 k hka1 hkb1,
      eloGet_elo_update_other (elo_update m a2 b2 w2) a1 b1 w1 k hka1 hkb1,
      eloGet_elo_update_other m a2 b2 w2 k hka2 hkb2]

/-- C5: swapping two records whose competitor pairs are disjoint leaves the
final rating mapping unchanged (same key set and same values at every key),
while for the concrete overlapping records (A vs B, then A vs C, both won
by A) swapping the order changes the final rating of B. -/
theorem elo_order_sensitivity :
    (∀ (r1 r2 : Row) (w k : String),
        rowGet r1 "model_a" ≠ rowGet r2 "model_a" →
        rowGet r1 "model_a" ≠ rowGet r2 "model_b" →
        rowGet r1 "model_b" ≠ rowGet r2 "model_a" →
        rowGet r1 "model_b" ≠ rowGet r2 "model_b" →
        hasKey (compute_elo_rankings [r1, r2] w) k
            = hasKey (compute_elo_rankings [r2, r1] w) k ∧
        eloGet (compute_elo_rankings [r1, r2] w) k
            = eloGet (compute_elo_rankings [r2, r1] w) k) ∧
    eloGet (compute_elo_rankings
        [[("model_a", "A"), ("model_b", "B"), ("human_winner", "a")],
          [("model_a", "A"), ("model_b", "C"), ("human_winner", "a")]]
        "human_winner") "B"
      ≠ eloGet (compute_elo_rankings
        [[("model_a", "A"), ("model_b", "C"), ("human_winner", "a")],
          [("model_a", "A"), ("model_b", "B"), ("human_winner", "a")]]
        "human_winner") "B" := by
  constructor
  · intro r1 r2 w k h1 h2 h3 h4
    exact ⟨hasKey_elo_update_comm [] (rowGet r1 "model_a") (rowGet r1 "model_b")
        (rowGet r1 w) (rowGet r2 "model_a") (rowGet r2 "model_b") (rowGet r2 w) k,
      eloGet_elo_update_comm [] (rowGet r1 "model_a") (rowGet r1 "model_b")
        (rowGet r1 w) (rowGet r2 "model_a") (rowGet r2 "model_b") (rowGet r2 w) k
        h1 h2 h3 h4⟩
  · have o1 : eloGet (elo_update (elo_update [] "A" "B" "a") "A" "C" "a") "B"
        = 1484 := by
      rw [eloGet_elo_update_other (elo_update [] "A" "B" "a") "A" "C" "a" "B"
          (by decide) (by decide),
        eloGet_elo_update_b [] "A" "B" "a" (Or.inl rfl)]
      norm_num [eloGet, INITIAL_ELO, K_FACTOR, Real.rpow_zero]
    have o2 : eloGet (elo_update (elo_update [] "A" "C" "a") "A" "B" "a") "B"
        = 1500 + 32 * (0 - 1 / (1 + (10 : ℝ) ^ (((1516 : ℝ) - 1500) / 400))) := by
      rw [eloGet_elo_update_b (elo_update [] "A" "C" "a") "A" "B" "a" (Or.inl rfl),
        eloGet_elo_update_other [] "A" "C" "a" "B" (by decide) (by decide),
        eloGet_elo_update_a [] "A" "C" "a" (Or.inl rfl) (by decide)]
      norm_num [eloGet, INITIAL_ELO, K_FACTOR, Real.rpow_zero]
    have hy : (1 : ℝ) < (10 : ℝ) ^ (((1516 : ℝ) - 1500) / 400) := by
      apply (Real.one_lt_rpow_iff_of_pos (by norm_num)).mpr
      left
      constructor <;> norm_num
    have hden : (0 : ℝ) < 1 + (10 : ℝ) ^ (((1516 : ℝ) - 1500) / 400) := by linarith
    have hlt : 32 / (1 + (10 : ℝ) ^ (((1516 : ℝ) - 1500) / 400)) < 16 := by
      rw [div_lt_iff₀ hden]
      nlinarith
    show eloGet (elo_update (elo_update [] "A" "B" "a") "A" "C" "a") "B"
        ≠ eloGet (elo_update (elo_update [] "A" "C" "a") "A" "B" "a") "B"
    rw [o1, o2]
    have hr : 32 * ((0 : ℝ) - 1 / (1 + (10 : ℝ) ^ (((1516 : ℝ) - 1500) / 400)))
        = -(32 / (1 + (10 : ℝ) ^ (((1516 : ℝ) - 1500) / 400))) := by
      ring
    intro hcontra
    rw [hr] at hcontra
    linarith

/-- Witness for C5 on two concrete records with disjoint competitor pairs. -/
theorem elo_order_sensitivity_witness :
    hasKey (compute_elo_rankings
        [[("model_a", "P"), ("model_b", "Q"), ("human_winner", "a")],
          [("model_a", "R"), ("model_b", "S"), ("human_winner", "b")]]
        "human_winner") "P"
      = hasKey (compute_elo_rankings
        [[("model_a", "R"), ("model_b", "S"), ("human_winner", "b")],
          [("model_a", "P"), ("model_b", "Q"), ("human_winner", "a")]]
        "human_winner") "P" ∧
    eloGet (compute_elo_rankings
        [[("model_a", "P"), ("model_b", "Q"), ("human_winner", "a")],
          [("model_a", "R"), ("model_b", "S"), ("human_winner", "b")]]
        "human_winner") "P"
      = eloGet (compute_elo_rankings
        [[("model_a", "R"), ("model_b", "S"), ("human_winner", "b")],
          [("model_a", "P"), ("model_b", "Q"), ("human_winner", "a")]]
        "human_winner") "P" :=
  elo_order_sensitivity.1
    [("model_a", "P"), ("model_b", "Q"), ("human_winner", "a")]
    [("model_a", "R"), ("model_b", "S"), ("human_winner", "b")]
    "human_winner" "P" (by decide) (by decide) (by decide) (by decide)

/-! Agreement-table lemmas. -/

theorem inter_counts_symm (results : List Row) (ja jb : String) :
    inter_counts results ja jb = inter_counts results jb ja := by
  simp only [inter_counts]
  congr 1
  funext counts row
  by_cases hA : rowGet row ja = "a" ∨ rowGet row ja = "b"
  · by_cases hB : rowGet row jb = "a" ∨ rowGet row jb = "b"
    · by_cases he : rowGet row ja = rowGet row jb
      · simp [hA, hB, he]
      · simp [hA, hB, he, Ne.symm he]
    · simp [hA, hB]
  · simp [hA]

theorem inter_entry_symm (results : List Row) (ja jb : String) :
    inter_entry results ja jb = inter_entry results jb ja := by
  simp only [inter_entry, inter_counts_symm results ja jb]

theorem foldl_fst_eq_snd {α : Type} (f : ℕ × ℕ → α → ℕ × ℕ)
    (hf : ∀ p a, p.1 = p.2 → (f p a).1 = (f p a).2) :
    ∀ (l : List α) (p : ℕ × ℕ), p.1 = p.2 → (l.foldl f p).1 = (l.foldl f p).2 := by
  intro l
  induction l with
  | nil => intro p h; exact h
  | cons a rest ih => intro p h; exact ih _ (hf p a h)

theorem foldl_fst_le_snd {α : Type} (f : ℕ × ℕ → α → ℕ × ℕ)
    (hf : ∀ p a, p.1 ≤ p.2 → (f p a).1 ≤ (f p a).2) :
    ∀ (l : List α) (p : ℕ × ℕ), p.1 ≤ p.2 → (l.foldl f p).1 ≤ (l.foldl f p).2 := by
  intro l
  induction l with
  | nil => intro p h; exact h
  | cons a rest ih => intro p h; exact ih _ (hf p a h)

theorem inter_counts_self (results : List Row) (X : String) :
    (inter_counts results X X).1 = (inter_counts results X X).2 := by
  unfold inter_counts
  refine foldl_fst_eq_snd _ ?_ results (0, 0) rfl
  intro p row h
  by_cases hA : rowGet row X = "a" ∨ rowGet row X = "b"
  · simp [hA, h]
  · simp [hA, h]

theorem inter_counts_fst_le (results : List Row) (ja jb : String) :
    (inter_counts results ja jb).1 ≤ (inter_counts results ja jb).2 := by
  unfold inter_counts
  refine foldl_fst_le_snd _ ?_ results (0, 0) (le_refl 0)
  intro p row h
  by_cases hA : rowGet row ja = "a" ∨ rowGet row ja = "b"
  · by_cases hB : rowGet row jb = "a" ∨ rowGet row jb = "b"
    · by_cases he : rowGet row ja = rowGet row jb
      · simp [hA, hB, he]
        omega
      · simp [hA, hB, he]
        omega
    · simp [hA, hB, h]
  · simp [hA, h]

theorem agree_counts_fst_le (results : List Row) (judge : String) :
    (agree_counts results judge).1 ≤ (agree_counts results judge).2 := by
  unfold agree_counts
  refine foldl_fst_le_snd _ ?_ results (0, 0) (le_refl 0)
  intro p row h
  by_cases hA : rowGet row "human_winner" = "a" ∨ rowGet row "human_winner" = "b"
  · by_cases hB : rowGet row judge = "a" ∨ rowGet row judge = "b"
    · by_cases he : rowGet row "human_winner" = rowGet row judge
      · simp [hA, hB, he]
        omega
      · simp [hA, hB, he]
        omega
    · simp [hA, hB, h]
  · simp [hA, h]

theorem percentage_of_self (t : Nat) (ht : t ≠ 0) : percentage_of t t = 100 := by
  rw [percentage_of, if_pos (Nat.pos_of_ne_zero ht)]
  rw [div_self (by exact_mod_cast ht : (t : ℚ) ≠ 0), one_mul]

theorem inner_entries_val (results : List Row) (ja : String) (cols : List String) :
    ∀ e ∈ inner_entries results ja cols, e.2 = inter_entry results e.1.1 e.1.2 := by
  induction cols with
  | nil => intro e he; simp [inner_entries] at he
  | cons jb rest ih =>
      intro e he
      simp only [inner_entries, List.mem_append, List.mem_cons] at he
      rcases he with (h | h) | h
      · rw [h]
      · by_cases hd : ja = jb
        · simp [hd] at h
        · simp only [if_neg hd, List.mem_singleton] at h
          rw [h]
          exact inter_entry_symm results ja jb
      · exact ih e h

theorem cij_val (results : List Row) (cols : List String) :
    ∀ e ∈ compute_inter_judge_agreement results cols,
      e.2 = inter_entry results e.1.1 e.1.2 := by
  induction cols with
  | nil => intro e he; simp [compute_inter_judge_agreement] at he
  | cons ja rest ih =>
      intro e he
      simp only [compute_inter_judge_agreement, List.mem_append] at he
      rcases he with h | h
      · exact inner_entries_val results ja (ja :: rest) e h
      · exact ih e h

theorem inner_entries_key_self (results : List Row) (ja : String) (cols : List String)
    (Y : String) (hY : Y ∈ cols) :
    ∃ e ∈ inner_entries results ja cols, e.1 = (ja, Y) := by
  induction cols with
  | nil => simp at hY
  | cons jb rest ih =>
      rcases List.mem_cons.mp hY with h | h
      · refine ⟨((ja, jb), inter_entry results ja jb), ?_, by rw [h]⟩
        simp [inner_entries]
      · obtain ⟨e, he, hkey⟩ := ih h
        refine ⟨e, ?_, hkey⟩
        simp only [inner_entries, List.mem_append]
        right
        exact he

theorem inner_entries_key_flip (results : List Row) (ja : String) (cols : List String)
    (Y : String) (hY : Y ∈ cols) :
    ∃ e ∈ inner_entries results ja cols, e.1 = (Y, ja) := by
  induction cols with
  | nil => simp at hY
  | cons jb rest ih =>
      rcases List.mem_cons.mp hY with h | h
      · by_cases hd : ja = jb
        · refine ⟨((ja, jb), inter_entry results ja jb), ?_, ?_⟩
          · simp [inner_entries]
          · rw [h, ← hd]
        · refine ⟨((jb, ja), inter_entry results ja jb), ?_, by rw [h]⟩
          simp [inner_entries, hd]
      · obtain ⟨e, he, hkey⟩ := ih h
        refine ⟨e, ?_, hkey⟩
        simp only [inner_entries, List.mem_append]
        right
        exact he

theorem cij_key (results : List Row) (cols : List String) (X Y : String)
    (hX : X ∈ cols) (hY : Y ∈ cols) :
    ∃ e ∈ compute_inter_judge_agreement results cols, e.1 = (X, Y) := by
  induction cols with
  | nil => simp at hX
  | cons ja rest ih =>
      by_cases hXa : X = ja
      · obtain ⟨e, he, hkey⟩ :=
          inner_entries_key_self results ja (ja :: rest) Y hY
        refine ⟨e, ?_, by rw [hkey, hXa]⟩
        simp only [compute_inter_judge_agreement, List.mem_append]
        left
        exact he
      · by_cases hYa : Y = ja
        · obtain ⟨e, he, hkey⟩ :=
            inner_entries_key_flip results ja (ja :: rest) X hX
          refine ⟨e, ?_, by rw [hkey, hYa]⟩
          simp only [compute_inter_judge_agreement, List.mem_append]
          left
          exact he
        · have hX' : X ∈ rest := by
            rcases List.mem_cons.mp hX with h | h
            · exact absurd h hXa
            · exact h
          have hY' : Y ∈ rest := by
            rcases List.mem_cons.mp hY with h | h
            · exact absurd h hYa
            · exact h
          obtain ⟨e, he, hkey⟩ := ih hX' hY'
          refine ⟨e, ?_, hkey⟩
          simp only [compute_inter_judge_agreement, List.mem_append]
          right
          exact he

theorem lookupStat_cij (results : List Row) (cols : List String) (X Y : String)
    (hX : X ∈ cols) (hY : Y ∈ cols) :
    lookupStat (compute_inter_judge_agreement results cols) (X, Y)
      = some (inter_entry results X Y) := by
  obtain ⟨e, he, hkey⟩ := cij_key results cols X Y hX hY
  have hsome :
      ((compute_inter_judge_agreement results cols).find?
        (fun e => decide (e.1 = (X, Y)))).isSome := by
    rw [List.find?_isSome]
    exact ⟨e, he, by simp [hkey]⟩
  obtain ⟨e', he'⟩ := Option.isSome_iff_exists.mp hsome
  have he'mem := List.mem_of_find?_eq_some he'
  have he'p := List.find?_some he'
  simp only [decide_eq_true_eq] at he'p
  have hval := cij_val results cols e' he'mem
  rw [lookupStat, he', Option.map_some', hval, he'p]

theorem lookupJudgeStat_map {β : Type} (f : String → β) (cols : List String)
    (j : String) (hj : j ∈ cols) :
    lookupJudgeStat (cols.map (fun c => (c, f c))) j = some (f j) := by
  induction cols with
  | nil => simp at hj
  | cons c rest ih =>
      by_cases hc : c = j
      · rw [hc]
        simp [lookupJudgeStat, List.find?]
      · have hj' : j ∈ rest := by
          rcases List.mem_cons.mp hj with h | h
          · exact absurd h.symm hc
          · exact h
        have := ih hj'
        simp only [lookupJudgeStat] at this ⊢
        rw [List.map_cons, List.find?_cons_of_neg _ (by simp [hc])]
        exact this

/-- C7: for every record list and every source `X` in the source list, the
self-pair entry `(X, X)` of `compute_inter_judge_agreement`, whenever its
total of valid votes is nonzero, carries percentage exactly 100.0. -/
theorem inter_judge_self_agreement (results : List Row) (cols : List String)
    (X : String) (hX : X ∈ cols) (ht : (inter_counts results X X).2 ≠ 0) :
    lookupStat (compute_inter_judge_agreement results cols) (X, X)
      = some
          ((inter_counts results X X).1, (inter_counts results X X).2, 100) := by
  rw [lookupStat_cij results cols X X hX hX]
  simp only [inter_entry]
  rw [inter_counts_self results X, percentage_of_self _ ht]

/-- Witness for C7: one record, one source voting `"a"`: the self entry is
`(1, 1, 100)`. -/
theorem inter_judge_self_agreement_witness :
    lookupStat (compute_inter_judge_agreement [[("j1", "a")]] ["j1"]) ("j1", "j1")
      = some
          ((inter_counts [[("j1", "a")]] "j1" "j1").1,
            (inter_counts [[("j1", "a")]] "j1" "j1").2, 100) :=
  inter_judge_self_agreement [[("j1", "a")]] ["j1"] "j1" (by decide) (by decide)

/-- C8: for every record list and every two sources `X`, `Y` of the source
list, `compute_inter_judge_agreement` answers both key orders `(X, Y)` and
`(Y, X)`, with identical `(agreements, total, percentage)` triples. -/
theorem inter_judge_symmetric (results : List Row) (cols : List String)
    (X Y : String) (hX : X ∈ cols) (hY : Y ∈ cols) :
    lookupStat (compute_inter_judge_agreement results cols) (X, Y)
        = some (inter_entry results X Y) ∧
    lookupStat (compute_inter_judge_agreement results cols) (Y, X)
        = some (inter_entry results X Y) := by
  refine ⟨lookupStat_cij results cols X Y hX hY, ?_⟩
  rw [lookupStat_cij results cols Y X hY hX, inter_entry_symm results Y X]

/-- Witness for C8 on one record and two sources. -/
theorem inter_judge_symmetric_witness :
    lookupStat
        (compute_inter_judge_agreement [[("j1", "a"), ("j2", "b")]] ["j1", "j2"])
        ("j1", "j2")
        = some (inter_entry [[("j1", "a"), ("j2", "b")]] "j1" "j2") ∧
    lookupStat
        (compute_inter_judge_agreement [[("j1", "a"), ("j2", "b")]] ["j1", "j2"])
        ("j2", "j1")
        = some (inter_entry [[("j1", "a"), ("j2", "b")]] "j1" "j2") :=
  inter_judge_symmetric [[("j1", "a"), ("j2", "b")]] ["j1", "j2"] "j1" "j2"
    (by decide) (by decide)

/-- C9: the divisions in `compute_agreement_stats` and
`compute_inter_judge_agreement` are guarded: a source (or source pair) with
zero records where both votes are valid reports the entry `(0, 0, 0.0)` —
percentage exactly 0.0, never a failure or NaN (the embedding is total). -/
theorem agreement_zero_total (results : List Row) (cols : List String)
    (j X Y : String) (hj : j ∈ cols) (hX : X ∈ cols) (hY : Y ∈ cols)
    (hjt : (agree_counts results j).2 = 0)
    (hpt : (inter_counts results X Y).2 = 0) :
    lookupJudgeStat (compute_agreement_stats results cols) j = some (0, 0, 0) ∧
    lookupStat (compute_inter_judge_agreement results cols) (X, Y)
      = some (0, 0, 0) := by
  constructor
  · have h1 : (agree_counts results j).1 = 0 := by
      have := agree_counts_fst_le results j
      omega
    have hmap := lookupJudgeStat_map
      (fun judge =>
        ((agree_counts results judge).1, (agree_counts results judge).2,
          percentage_of (agree_counts results judge).1 (agree_counts results judge).2))
      cols j hj
    have hgoal :
        lookupJudgeStat (compute_agreement_stats results cols) j
          = some
              ((agree_counts results j).1, (agree_counts results j).2,
                percentage_of (agree_counts results j).1 (agree_counts results j).2) :=
      hmap
    rw [hgoal, h1, hjt]
    norm_num [percentage_of]
  · have h1 : (inter_counts results X Y).1 = 0 := by
      have := inter_counts_fst_le results X Y
      omega
    rw [lookupStat_cij results cols X Y hX hY]
    simp only [inter_entry]
    rw [h1, hpt]
    norm_num [percentage_of]

/-- Witness for C9 on the empty record list. -/
theorem agreement_zero_total_witness :
    lookupJudgeStat (compute_agreement_stats [] ["j1"]) "j1" = some (0, 0, 0) ∧
    lookupStat (compute_inter_judge_agreement [] ["j1"]) ("j1", "j1")
      = some (0, 0, 0) :=
  agreement_zero_total [] ["j1"] "j1" "j1" "j1" (by decide) (by decide) (by decide)
    (by decide) (by decide)

end JudgeStats
